import Mathlib

/-!
Verification of `jina/executors/encoders/nlp/transformer.py`.

The source file contains the transformer text encoder adapter: it tokenizes a
batch of strings (right-padded to `max_length`), derives the attention mask
from pad-token identity, runs backend inference, and reduces the per-token
sequence output to one vector per input via a pooling strategy
(`cls` / `mean` / `max` / `min`).

The pooling helpers `reduce_mean`, `reduce_max`, `reduce_min`, `reduce_cls`
are imported in the source from `..helper`, a module of this repository whose
code is not available here; they are modelled from the spec (§4.2 and §7) and
marked as such.  Everything else is translated from the source file.

Floats are modelled as rationals; the external tokenizer and model are
abstract function parameters of `encode` (they are third-party collaborators
in the source as well).
-/

namespace Jina

/-- A hidden-state vector (one token's embedding), dimension `D`. -/
abbrev Vec := List ℚ

/-- Per-token hidden states of one input row, length `L`. -/
abbrev SeqRow := List Vec

/-- The sequence output tensor `[B][L][D]`. -/
abbrev Seq := List SeqRow

/-- The attention-mask matrix `[B][L]` of 0/1 entries. -/
abbrev Mask := List (List Nat)

/-- Registered CLS position of a model family (`self.cls_pos` in the source). -/
inductive ClsPos
  | head
  | tail
deriving DecidableEq

/-- The failure modes of `encode` (the source raises Python exceptions:
`NotImplementedError` for an unknown pooling strategy at lines 114-116,
`AttributeError` when `self.cls_pos` was never assigned, `IndexError` when
`extra_output` is empty; the reduce helpers fail on an all-zero mask row,
which the spec names `EmptySequenceError`). -/
inductive EncodeError
  | emptySequence
  | unsupportedPooling (strategy : String)
  | missingClsPos
  | missingPooledOutput
deriving DecidableEq

/-- Observable steps of one `encode` call, in program order: one `tokenize`
per input string (the loop at lines 91-96), then the backend model call
(line 100). -/
inductive Step
  | tokenize
  | inference
deriving DecidableEq

/-- Keys of `tokenizer_dict` (source lines 46-58): the supported-model
registry. -/
def tokenizer_dict_keys : List String :=
  ["bert-base-uncased", "openai-gpt", "gpt2", "xlnet-base-cased",
   "xlm-mlm-enfr-1024", "distilbert-base-cased", "roberta-base",
   "xlm-roberta-base", "flaubert-base-cased", "camembert-base", "ctrl"]

/-- Keys of `model_dict` in `TransformerTFEncoder._init_model`
(source lines 158-169).  Note: no entry for `flaubert-base-cased`. -/
def tf_model_dict_keys : List String :=
  ["bert-base-uncased", "openai-gpt", "gpt2", "xlnet-base-cased",
   "xlm-mlm-enfr-1024", "distilbert-base-cased", "roberta-base",
   "xlm-roberta-base", "camembert-base", "ctrl"]

/-- Keys of `model_dict` in `TransformerTorchEncoder._init_model`
(source lines 186-198). -/
def torch_model_dict_keys : List String :=
  ["bert-base-uncased", "openai-gpt", "gpt2", "xlnet-base-cased",
   "xlm-mlm-enfr-1024", "distilbert-base-cased", "roberta-base",
   "xlm-roberta-base", "flaubert-base-cased", "camembert-base", "ctrl"]

/-- The model names assigned `cls_pos = 'head'` (source lines 71-74). -/
def head_cls_models : List String :=
  ["bert-base-uncased", "distilbert-base-cased", "roberta-base",
   "xlm-roberta-base", "flaubert-base-cased", "camembert-base"]

/-- The model names whose tokenizer pad token is overridden to the sentinel
`<PAD>` (source lines 78-79). -/
def pad_override_models : List String :=
  ["openai-gpt", "gpt2", "xlm-mlm-enfr-1024", "xlnet-base-cased"]

/-- `needle` is a leading segment of `hay` (character lists). -/
def charsLeadSeg : List Char → List Char → Bool
  | [], _ => true
  | _ :: _, [] => false
  | a :: as, b :: bs => a = b && charsLeadSeg as bs

/-- Python's substring test `needle in hay` on strings, as character lists.
Needed because source line 75 reads `self.model_name in ('xlnet-base-cased')`:
`('xlnet-base-cased')` is a plain string, not a tuple, so Python performs a
substring test. -/
def containsSub (needle : List Char) : List Char → Bool
  | [] => charsLeadSeg needle []
  | c :: cs => charsLeadSeg needle (c :: cs) || containsSub needle cs

/-- The `cls_pos` attribute assigned by `_init_tokenizer` (source lines
71-76): `'head'` for the six models of `head_cls_models`; `'tail'` when the
name passes the (substring) test against `'xlnet-base-cased'`; otherwise the
attribute is never assigned, modelled as `none`. -/
def clsPosFor (name : String) : Option ClsPos :=
  if name ∈ head_cls_models then some ClsPos.head
  else if containsSub name.toList "xlnet-base-cased".toList then some ClsPos.tail
  else none

/-- The message logged at source line 61 when `model_name` is not in the
registry; the source logs it and then raises `ValueError`, one failure event
modelled as an error carrying this message. -/
def supportsMessage (name : String) : String :=
  name ++ " not in our supports: " ++ String.intercalate "," tokenizer_dict_keys

/-- The constructor state (`__init__`, source lines 18-39): the four
configuration parameters are stored unvalidated. -/
structure EncoderConfig where
  model_name : String
  pooling_strategy : String
  max_length : Nat
  model_path : String

/-- `__init__` (source lines 18-39): store the configuration; no validation
of any parameter is performed here. -/
def mkConfig (model_name pooling_strategy : String) (max_length : Nat)
    (model_path : String) : EncoderConfig :=
  ⟨model_name, pooling_strategy, max_length, model_path⟩

/-- The initialized encoder: configuration plus the state `_init_tokenizer`
computes (registered CLS position and effective pad-token id). -/
structure Encoder where
  model_name : String
  pooling_strategy : String
  max_length : Nat
  model_path : String
  cls_pos : Option ClsPos
  pad_token_id : Int

/-- `_init_tokenizer` (source lines 41-79): the registry check comes first
(lines 60-62) — on failure the enumerating message is logged and the call
raises before the tokenizer is ever constructed, hence before any
tokenization can happen.  On success the tokenizer is built, `cls_pos` is
assigned per `clsPosFor`, and for `pad_override_models` the pad token is
overridden to the `<PAD>` sentinel.  `pad_of` gives the pretrained
tokenizer's pad-token id, `sentinel_pad` the id of `<PAD>` — both are
third-party tokenizer data. -/
def initTokenizer (cfg : EncoderConfig) (pad_of : String → Int)
    (sentinel_pad : Int) : Except String Encoder :=
  if cfg.model_name ∈ tokenizer_dict_keys then
    Except.ok
      ⟨cfg.model_name, cfg.pooling_strategy, cfg.max_length, cfg.model_path,
       clsPosFor cfg.model_name,
       if cfg.model_name ∈ pad_override_models then sentinel_pad
       else pad_of cfg.model_name⟩
  else Except.error (supportsMessage cfg.model_name)

/-- Source line 94: `mask_ids = [0 if t == self.tokenizer.pad_token_id else 1
for t in token_ids]`. -/
def maskOf (pad : Int) (ids : List Int) : List Nat :=
  ids.map (fun t => if t = pad then 0 else 1)

/-- The tokenization loop of `encode` (source lines 89-96): per string, the
tokenizer's ids (already padded/truncated to `max_length` by the tokenizer
call), and the mask derived from pad-token identity. -/
def tokenBatch (tokenize : String → List Int) (pad : Int)
    (data : List String) : List (List Int) × List (List Nat) :=
  (data.map tokenize, (data.map tokenize).map (maskOf pad))

/-- Modelled from the spec: the masked selection underlying the reduce
helpers of `jina/executors/encoders/helper.py` (not under the available
sources) — keep exactly the vectors at positions `j` with `mask[j] == 1`
(spec §4.2). -/
def selectMasked : SeqRow → List Nat → List Vec
  | [], _ => []
  | _ :: _, [] => []
  | v :: vs, m :: ms =>
    if m = 1 then v :: selectMasked vs ms else selectMasked vs ms

/-- Elementwise fold of a binary operation over a list of vectors. -/
def foldVecs (f : ℚ → ℚ → ℚ) : Vec → List Vec → Vec
  | acc, [] => acc
  | acc, v :: vs => foldVecs f (List.zipWith f acc v) vs

/-- Modelled from the spec: one row of `reduce_max`/`reduce_min` (helper
module not under the available sources) — elementwise fold of `f` over the
masked positions only; `EmptySequenceError` when the row's mask selects
nothing (spec §4.2, §7). -/
def poolRow (f : ℚ → ℚ → ℚ) (row : SeqRow) (mrow : List Nat) :
    Except EncodeError Vec :=
  match selectMasked row mrow with
  | [] => Except.error EncodeError.emptySequence
  | v :: vs => Except.ok (foldVecs f v vs)

/-- Modelled from the spec: one row of `reduce_mean` (helper module not
under the available sources) — arithmetic average of the masked vectors;
`EmptySequenceError` when the row's mask selects nothing (spec §4.2, §7). -/
def reduce_mean_row (row : SeqRow) (mrow : List Nat) :
    Except EncodeError Vec :=
  match selectMasked row mrow with
  | [] => Except.error EncodeError.emptySequence
  | v :: vs =>
    Except.ok ((foldVecs (fun a b => a + b) v vs).map
      (fun x => x / ((vs.length : ℚ) + 1)))

/-- Highest index `j` with `mrow[j] == 1`, or `none` when the row has no
real token. -/
def lastMaskedIdx (mrow : List Nat) : Option Nat :=
  ((List.range mrow.length).filter (fun j => mrow.getD j 0 == 1)).getLast?

/-- Modelled from the spec: one row of `reduce_cls` (helper module not under
the available sources) — `head` takes the vector at index 0, `tail` the
vector at the highest unmasked index; `EmptySequenceError` when the needed
position does not exist (spec §4.2, §7). -/
def reduce_cls_row (row : SeqRow) (mrow : List Nat) (pos : ClsPos) :
    Except EncodeError Vec :=
  match pos with
  | ClsPos.head =>
    match row with
    | [] => Except.error EncodeError.emptySequence
    | v :: _ => Except.ok v
  | ClsPos.tail =>
    match lastMaskedIdx mrow with
    | none => Except.error EncodeError.emptySequence
    | some j =>
      match row[j]? with
      | some v => Except.ok v
      | none => Except.error EncodeError.emptySequence

/-- Apply a fallible row function across a batch; the first failing row
fails the whole call and no row's result is returned. -/
def mapExcept {α β ε : Type} (f : α → Except ε β) : List α → Except ε (List β)
  | [] => Except.ok []
  | a :: as =>
    match f a with
    | Except.error e => Except.error e
    | Except.ok b =>
      match mapExcept f as with
      | Except.error e => Except.error e
      | Except.ok bs => Except.ok (b :: bs)

/-- Modelled from the spec: `reduce_max` of the helper module (not under the
available sources) — per row, elementwise max over the positions with
mask 1 (spec §4.2). -/
def reduce_max (seq : Seq) (mask : Mask) : Except EncodeError (List Vec) :=
  mapExcept (fun p => poolRow max p.1 p.2) (seq.zip mask)

/-- Modelled from the spec: `reduce_min` of the helper module (not under the
available sources) — per row, elementwise min over the positions with
mask 1 (spec §4.2). -/
def reduce_min (seq : Seq) (mask : Mask) : Except EncodeError (List Vec) :=
  mapExcept (fun p => poolRow min p.1 p.2) (seq.zip mask)

/-- Modelled from the spec: `reduce_mean` of the helper module (not under
the available sources) — per row, average over the positions with mask 1
(spec §4.2). -/
def reduce_mean (seq : Seq) (mask : Mask) : Except EncodeError (List Vec) :=
  mapExcept (fun p => reduce_mean_row p.1 p.2) (seq.zip mask)

/-- Modelled from the spec: `reduce_cls` of the helper module (not under the
available sources) — per row, the single vector at the registered CLS
position (spec §4.2). -/
def reduce_cls (seq : Seq) (mask : Mask) (pos : ClsPos) :
    Except EncodeError (List Vec) :=
  mapExcept (fun p => reduce_cls_row p.1 p.2 pos) (seq.zip mask)

/-- `encode` (source lines 81-117), in program order: tokenize every string
and derive its mask (lines 89-96), run backend inference (line 100), then
dispatch on `pooling_strategy` (lines 103-116): `cls` uses the native pooled
output `extra_output[0]` for `bert-base-uncased`/`roberta-base` and
`reduce_cls` at the registered `cls_pos` otherwise; `mean`/`max`/`min` use
the corresponding reduce helper; any other strategy value is only detected
here and fails.  `tokenize` models `self.tokenizer.encode(s,
pad_to_max_length=True, max_length=self.max_length)`; `model` the backend
model call returning the sequence output and the extra outputs.  The first
component records the performed steps in order. -/
def encode (enc : Encoder) (tokenize : String → List Int)
    (model : List (List Int) → List (List Nat) → Seq × List (List Vec))
    (data : List String) : List Step × Except EncodeError (List Vec) :=
  let tb := tokenBatch tokenize enc.pad_token_id data
  let outp := model tb.1 tb.2
  let seq_output := outp.1
  let extra_output := outp.2
  let steps := List.replicate data.length Step.tokenize ++ [Step.inference]
  let result : Except EncodeError (List Vec) :=
    if enc.pooling_strategy = "cls" then
      if enc.model_name = "bert-base-uncased" ∨ enc.model_name = "roberta-base" then
        match extra_output with
        | p :: _ => Except.ok p
        | [] => Except.error EncodeError.missingPooledOutput
      else
        match enc.cls_pos with
        | some pos => reduce_cls seq_output tb.2 pos
        | none => Except.error EncodeError.missingClsPos
    else if enc.pooling_strategy = "mean" then reduce_mean seq_output tb.2
    else if enc.pooling_strategy = "max" then reduce_max seq_output tb.2
    else if enc.pooling_strategy = "min" then reduce_min seq_output tb.2
    else Except.error (EncodeError.unsupportedPooling enc.pooling_strategy)
  (steps, result)

/-! ### Infrastructure lemmas -/

theorem mapExcept_nil {α β ε : Type} (f : α → Except ε β) :
    mapExcept f [] = Except.ok [] := rfl

theorem mapExcept_cons {α β ε : Type} (f : α → Except ε β) (a : α) (as : List α) :
    mapExcept f (a :: as) =
      match f a with
      | Except.error e => Except.error e
      | Except.ok b =>
        match mapExcept f as with
        | Except.error e => Except.error e
        | Except.ok bs => Except.ok (b :: bs) := rfl

theorem mapExcept_ok_length {α β ε : Type} (f : α → Except ε β) :
    ∀ (l : List α) (bs : List β), mapExcept f l = Except.ok bs → bs.length = l.length := by
  intro l
  induction l with
  | nil =>
    intro bs h
    rw [mapExcept_nil] at h
    cases h
    rfl
  | cons a as ih =>
    intro bs h
    rw [mapExcept_cons] at h
    cases hfa : f a with
    | error e => rw [hfa] at h; exact Except.noConfusion h
    | ok b =>
      rw [hfa] at h
      cases hrec : mapExcept f as with
      | error e => rw [hrec] at h; exact Except.noConfusion h
      | ok bs2 =>
        rw [hrec] at h
        cases h
        simp [ih bs2 hrec]

theorem mapExcept_ok_getD {α β ε : Type} (f : α → Except ε β) :
    ∀ (l : List α) (bs : List β), mapExcept f l = Except.ok bs →
      ∀ (i : Nat), i < l.length → ∀ (da : α) (db : β),
        f (l.getD i da) = Except.ok (bs.getD i db) := by
  intro l
  induction l with
  | nil =>
    intro bs _ i hi
    exact absurd hi (by simp)
  | cons a as ih =>
    intro bs h i hi da db
    rw [mapExcept_cons] at h
    cases hfa : f a with
    | error e => rw [hfa] at h; exact Except.noConfusion h
    | ok b =>
      rw [hfa] at h
      cases hrec : mapExcept f as with
      | error e => rw [hrec] at h; exact Except.noConfusion h
      | ok bs2 =>
        rw [hrec] at h
        cases h
        cases i with
        | zero => simpa using hfa
        | succ j =>
          have hj : j < as.length := by simpa using hi
          simpa using ih bs2 hrec j hj da db

theorem mapExcept_ok_of_forall {α β ε : Type} (f : α → Except ε β) :
    ∀ (l : List α), (∀ a ∈ l, ∃ b, f a = Except.ok b) →
      ∃ bs, mapExcept f l = Except.ok bs := by
  intro l
  induction l with
  | nil => intro _; exact ⟨[], rfl⟩
  | cons a as ih =>
    intro h
    obtain ⟨b, hb⟩ := h a (by simp)
    obtain ⟨bs, hbs⟩ := ih (fun x hx => h x (by simp [hx]))
    refine ⟨b :: bs, ?_⟩
    rw [mapExcept_cons, hb, hbs]

theorem mapExcept_error_of_mem {α β ε : Type} (f : α → Except ε β) :
    ∀ (l : List α) (a : α) (e : ε), a ∈ l → f a = Except.error e →
      ∃ e2, mapExcept f l = Except.error e2 := by
  intro l
  induction l with
  | nil => intro a e ha; exact absurd ha (by simp)
  | cons x xs ih =>
    intro a e ha hfa
    rw [List.mem_cons] at ha
    cases hfx : f x with
    | error e2 => exact ⟨e2, by rw [mapExcept_cons, hfx]⟩
    | ok b =>
      cases ha with
      | inl hax => rw [hax] at hfa; rw [hfa] at hfx; exact Except.noConfusion hfx
      | inr hmem =>
        obtain ⟨e2, he2⟩ := ih a e hmem hfa
        refine ⟨e2, ?_⟩
        rw [mapExcept_cons, hfx, he2]

theorem mapExcept_error_mem {α β ε : Type} (f : α → Except ε β) :
    ∀ (l : List α) (e : ε), mapExcept f l = Except.error e →
      ∃ a, a ∈ l ∧ f a = Except.error e := by
  intro l
  induction l with
  | nil =>
    intro e h
    rw [mapExcept_nil] at h
    exact Except.noConfusion h
  | cons x xs ih =>
    intro e h
    rw [mapExcept_cons] at h
    cases hfx : f x with
    | error e2 =>
      rw [hfx] at h
      cases h
      exact ⟨x, by simp, hfx⟩
    | ok b =>
      rw [hfx] at h
      cases hrec : mapExcept f xs with
      | error e2 =>
        rw [hrec] at h
        cases h
        obtain ⟨a, ha, hfa⟩ := ih e hrec
        exact ⟨a, by simp [ha], hfa⟩
      | ok bs => rw [hrec] at h; exact Except.noConfusion h

/-! ### Error classification of the row reducers -/

theorem poolRow_error_eq (f : ℚ → ℚ → ℚ) (row : SeqRow) (mrow : List Nat)
    (e : EncodeError) (h : poolRow f row mrow = Except.error e) :
    e = EncodeError.emptySequence := by
  unfold poolRow at h
  cases hsel : selectMasked row mrow with
  | nil => rw [hsel] at h; cases h; rfl
  | cons v vs => rw [hsel] at h; exact Except.noConfusion h

theorem reduce_mean_row_error_eq (row : SeqRow) (mrow : List Nat)
    (e : EncodeError) (h : reduce_mean_row row mrow = Except.error e) :
    e = EncodeError.emptySequence := by
  unfold reduce_mean_row at h
  cases hsel : selectMasked row mrow with
  | nil => rw [hsel] at h; cases h; rfl
  | cons v vs => rw [hsel] at h; exact Except.noConfusion h

theorem reduce_cls_row_error_eq (row : SeqRow) (mrow : List Nat) (pos : ClsPos)
    (e : EncodeError) (h : reduce_cls_row row mrow pos = Except.error e) :
    e = EncodeError.emptySequence := by
  cases pos with
  | head =>
    cases row with
    | nil => simp only [reduce_cls_row] at h; cases h; rfl
    | cons v vs => simp only [reduce_cls_row] at h; exact Except.noConfusion h
  | tail =>
    cases hlast : lastMaskedIdx mrow with
    | none => simp only [reduce_cls_row, hlast] at h; cases h; rfl
    | some j =>
      cases hget : row[j]? with
      | none => simp only [reduce_cls_row, hlast, hget] at h; cases h; rfl
      | some v => simp only [reduce_cls_row, hlast, hget] at h; exact Except.noConfusion h

/-! ### selectMasked characterization -/

theorem selectMasked_eq (mrow : List Nat) : ∀ (row : SeqRow),
    mrow.length = row.length →
    selectMasked row mrow =
      ((List.range mrow.length).filter (fun j => mrow.getD j 0 == 1)).map
        (fun j => row.getD j []) := by
  induction mrow with
  | nil =>
    intro row h
    cases row with
    | nil => rfl
    | cons v vs => simp at h
  | cons m ms ih =>
    intro row h
    cases row with
    | nil => simp at h
    | cons v vs =>
      have hlen : ms.length = vs.length := by simpa using h
      have htail := ih vs hlen
      by_cases hm : m = 1
      · have hm2 : ((m :: ms).getD 0 0 == 1) = true := by
          simp [List.getD_cons_zero, hm]
        simp only [selectMasked, if_pos hm, List.length_cons,
          List.range_succ_eq_map, List.filter_cons, hm2, if_true]
        simp only [List.filter_map, List.map_cons, List.map_map, htail]
        simp [Function.comp_def, Nat.succ_eq_add_one, List.getD_cons_succ,
          List.getD_cons_zero]
      · have hm2 : ((m :: ms).getD 0 0 == 1) = false := by
          simp only [List.getD_cons_zero]
          exact beq_eq_false_iff_ne.mpr hm
        simp only [selectMasked, if_neg hm, List.length_cons,
          List.range_succ_eq_map, List.filter_cons, hm2, Bool.false_eq_true,
          if_false]
        simp only [List.filter_map, List.map_map, htail]
        simp [Function.comp_def, Nat.succ_eq_add_one, List.getD_cons_succ]

theorem mem_selectMasked (row : SeqRow) (mrow : List Nat)
    (h : mrow.length = row.length) (v : Vec) :
    v ∈ selectMasked row mrow ↔
      ∃ j, j < mrow.length ∧ mrow.getD j 0 = 1 ∧ row.getD j [] = v := by
  rw [selectMasked_eq mrow row h]
  simp only [List.mem_map, List.mem_filter, List.mem_range, beq_iff_eq]
  constructor
  · rintro ⟨j, ⟨hj, hm⟩, hv⟩
    exact ⟨j, hj, hm, hv⟩
  · rintro ⟨j, hj, hm, hv⟩
    exact ⟨j, ⟨hj, hm⟩, hv⟩

theorem selectMasked_sub : ∀ (row : SeqRow) (mrow : List Nat),
    ∀ v ∈ selectMasked row mrow, v ∈ row := by
  intro row
  induction row with
  | nil => intro mrow v hv; cases mrow <;> simp [selectMasked] at hv
  | cons u us ih =>
    intro mrow v hv
    cases mrow with
    | nil => simp [selectMasked] at hv
    | cons m ms =>
      simp only [selectMasked] at hv
      by_cases hm : m = 1
      · rw [if_pos hm] at hv
        rcases List.mem_cons.mp hv with h1 | h2
        · simp [h1]
        · exact List.mem_cons_of_mem u (ih ms v h2)
      · rw [if_neg hm] at hv
        exact List.mem_cons_of_mem u (ih ms v hv)

theorem selectMasked_eq_nil : ∀ (row : SeqRow) (mrow : List Nat),
    (∀ m ∈ mrow, m ≠ 1) → selectMasked row mrow = [] := by
  intro row
  induction row with
  | nil => intro mrow _; cases mrow <;> rfl
  | cons u us ih =>
    intro mrow h
    cases mrow with
    | nil => rfl
    | cons m ms =>
      simp only [selectMasked]
      rw [if_neg (h m (by simp))]
      exact ih ms (fun x hx => h x (by simp [hx]))

theorem selectMasked_ne_nil (row : SeqRow) (mrow : List Nat)
    (h : mrow.length = row.length)
    (hj : ∃ j, j < mrow.length ∧ mrow.getD j 0 = 1) :
    selectMasked row mrow ≠ [] := by
  obtain ⟨j, hjlt, hjm⟩ := hj
  intro hnil
  have : row.getD j [] ∈ selectMasked row mrow :=
    (mem_selectMasked row mrow h _).mpr ⟨j, hjlt, hjm, rfl⟩
  rw [hnil] at this
  exact absurd this (by simp)

/-! ### foldVecs lemmas -/

theorem foldVecs_nil (f : ℚ → ℚ → ℚ) (acc : Vec) : foldVecs f acc [] = acc := rfl

theorem foldVecs_cons (f : ℚ → ℚ → ℚ) (acc v : Vec) (vs : List Vec) :
    foldVecs f acc (v :: vs) = foldVecs f (List.zipWith f acc v) vs := rfl

theorem foldVecs_length (f : ℚ → ℚ → ℚ) :
    ∀ (vs : List Vec) (acc : Vec), (∀ u ∈ vs, u.length = acc.length) →
      (foldVecs f acc vs).length = acc.length := by
  intro vs
  induction vs with
  | nil => intro acc _; rfl
  | cons u us ih =>
    intro acc h
    rw [foldVecs_cons]
    have hu : u.length = acc.length := h u (by simp)
    have hlen : (List.zipWith f acc u).length = acc.length := by
      rw [List.length_zipWith, hu, Nat.min_self]
    rw [ih _ ?_, hlen]
    intro w hw
    rw [hlen]
    exact h w (by simp [hw])

theorem foldVecs_getD (f : ℚ → ℚ → ℚ) :
    ∀ (vs : List Vec) (acc : Vec) (d : Nat),
      (∀ u ∈ vs, u.length = acc.length) → d < acc.length →
      (foldVecs f acc vs).getD d 0 =
        vs.foldl (fun x u => f x (u.getD d 0)) (acc.getD d 0) := by
  intro vs
  induction vs with
  | nil => intro acc d _ _; rfl
  | cons u us ih =>
    intro acc d h hd
    rw [foldVecs_cons, List.foldl_cons]
    have hu : u.length = acc.length := h u (by simp)
    have hlen : (List.zipWith f acc u).length = acc.length := by
      rw [List.length_zipWith, hu, Nat.min_self]
    have hzip : (List.zipWith f acc u).getD d 0 = f (acc.getD d 0) (u.getD d 0) := by
      rw [List.getD_eq_getElem _ _ (by rw [hlen]; exact hd),
        List.getD_eq_getElem _ _ hd, List.getD_eq_getElem _ _ (by rw [hu]; exact hd)]
      exact List.getElem_zipWith
    rw [ih _ d ?_ (by rw [hlen]; exact hd), hzip]
    intro w hw
    rw [hlen]
    exact h w (by simp [hw])

/-! ### foldl properties over ℚ -/

theorem foldl_max_init_le : ∀ (l : List ℚ) (a : ℚ), a ≤ l.foldl max a := by
  intro l
  induction l with
  | nil => intro a; exact le_refl a
  | cons x xs ih =>
    intro a
    rw [List.foldl_cons]
    exact le_trans (le_max_left a x) (ih (max a x))

theorem foldl_max_mem_le : ∀ (l : List ℚ) (a x : ℚ), x ∈ l → x ≤ l.foldl max a := by
  intro l
  induction l with
  | nil => intro a x hx; exact absurd hx (by simp)
  | cons y ys ih =>
    intro a x hx
    rw [List.foldl_cons]
    rcases List.mem_cons.mp hx with h1 | h2
    · rw [h1]
      exact le_trans (le_max_right a y) (foldl_max_init_le ys (max a y))
    · exact ih (max a y) x h2

theorem foldl_max_choice : ∀ (l : List ℚ) (a : ℚ),
    l.foldl max a = a ∨ l.foldl max a ∈ l := by
  intro l
  induction l with
  | nil => intro a; exact Or.inl rfl
  | cons x xs ih =>
    intro a
    rw [List.foldl_cons]
    rcases ih (max a x) with h | h
    · rw [h]
      rcases max_choice a x with h2 | h2
      · exact Or.inl h2
      · exact Or.inr (by rw [h2]; simp)
    · exact Or.inr (by simp [h])

theorem foldl_min_le_init : ∀ (l : List ℚ) (a : ℚ), l.foldl min a ≤ a := by
  intro l
  induction l with
  | nil => intro a; exact le_refl a
  | cons x xs ih =>
    intro a
    rw [List.foldl_cons]
    exact le_trans (ih (min a x)) (min_le_left a x)

theorem foldl_min_le_mem : ∀ (l : List ℚ) (a x : ℚ), x ∈ l → l.foldl min a ≤ x := by
  intro l
  induction l with
  | nil => intro a x hx; exact absurd hx (by simp)
  | cons y ys ih =>
    intro a x hx
    rw [List.foldl_cons]
    rcases List.mem_cons.mp hx with h1 | h2
    · rw [h1]
      exact le_trans (foldl_min_le_init ys (min a y)) (min_le_right a y)
    · exact ih (min a y) x h2

theorem foldl_min_choice : ∀ (l : List ℚ) (a : ℚ),
    l.foldl min a = a ∨ l.foldl min a ∈ l := by
  intro l
  induction l with
  | nil => intro a; exact Or.inl rfl
  | cons x xs ih =>
    intro a
    rw [List.foldl_cons]
    rcases ih (min a x) with h | h
    · rw [h]
      rcases min_choice a x with h2 | h2
      · exact Or.inl h2
      · exact Or.inr (by rw [h2]; simp)
    · exact Or.inr (by simp [h])

theorem foldl_add_eq : ∀ (l : List ℚ) (a : ℚ),
    l.foldl (fun x y => x + y) a = a + l.sum := by
  intro l
  induction l with
  | nil => intro a; simp
  | cons x xs ih =>
    intro a
    rw [List.foldl_cons, ih (a + x), List.sum_cons]
    ring

/-! ### Row-level pooling specifications -/

theorem poolRow_max_spec (row : SeqRow) (mrow : List Nat) (D : Nat)
    (hlen : mrow.length = row.length)
    (hdim : ∀ u ∈ row, u.length = D)
    (hne : ∃ j, j < mrow.length ∧ mrow.getD j 0 = 1) :
    ∃ r, poolRow max row mrow = Except.ok r ∧ r.length = D ∧
      ∀ d, d < D →
        ((∃ j, j < mrow.length ∧ mrow.getD j 0 = 1 ∧
            (row.getD j []).getD d 0 = r.getD d 0) ∧
         (∀ j, j < mrow.length → mrow.getD j 0 = 1 →
            (row.getD j []).getD d 0 ≤ r.getD d 0)) := by
  cases hsel : selectMasked row mrow with
  | nil => exact absurd hsel (selectMasked_ne_nil row mrow hlen hne)
  | cons v vs =>
    have hsub : ∀ u ∈ selectMasked row mrow, u.length = D :=
      fun u hu => hdim u (selectMasked_sub row mrow u hu)
    have hvD : v.length = D := hsub v (by rw [hsel]; simp)
    have hvsD : ∀ u ∈ vs, u.length = v.length := by
      intro u hu
      rw [hvD]
      exact hsub u (by rw [hsel]; simp [hu])
    refine ⟨foldVecs max v vs, ?_, ?_, ?_⟩
    · unfold poolRow
      rw [hsel]
    · rw [foldVecs_length max vs v hvsD, hvD]
    · intro d hd
      have hdv : d < v.length := by rw [hvD]; exact hd
      have hfold := foldVecs_getD max vs v d hvsD hdv
      rw [← List.foldl_map (fun u => u.getD d 0) max vs (v.getD d 0)] at hfold
      constructor
      · rcases foldl_max_choice (vs.map (fun u => u.getD d 0)) (v.getD d 0) with hc | hc
        · have hv : v ∈ selectMasked row mrow := by rw [hsel]; simp
          obtain ⟨j, hj, hm, hrow⟩ := (mem_selectMasked row mrow hlen v).mp hv
          exact ⟨j, hj, hm, by rw [hrow, hfold, hc]⟩
        · obtain ⟨u, hu, huv⟩ := List.mem_map.mp hc
          have humem : u ∈ selectMasked row mrow := by rw [hsel]; simp [hu]
          obtain ⟨j, hj, hm, hrow⟩ := (mem_selectMasked row mrow hlen u).mp humem
          exact ⟨j, hj, hm, by rw [hrow, hfold, huv]⟩
      · intro j hj hm
        have hmem : row.getD j [] ∈ selectMasked row mrow :=
          (mem_selectMasked row mrow hlen _).mpr ⟨j, hj, hm, rfl⟩
        rw [hsel, List.mem_cons] at hmem
        rw [hfold]
        rcases hmem with h1 | h2
        · rw [h1]
          exact foldl_max_init_le _ _
        · exact foldl_max_mem_le _ _ _ (List.mem_map.mpr ⟨_, h2, rfl⟩)

theorem poolRow_min_spec (row : SeqRow) (mrow : List Nat) (D : Nat)
    (hlen : mrow.length = row.length)
    (hdim : ∀ u ∈ row, u.length = D)
    (hne : ∃ j, j < mrow.length ∧ mrow.getD j 0 = 1) :
    ∃ r, poolRow min row mrow = Except.ok r ∧ r.length = D ∧
      ∀ d, d < D →
        ((∃ j, j < mrow.length ∧ mrow.getD j 0 = 1 ∧
            (row.getD j []).getD d 0 = r.getD d 0) ∧
         (∀ j, j < mrow.length → mrow.getD j 0 = 1 →
            r.getD d 0 ≤ (row.getD j []).getD d 0)) := by
  cases hsel : selectMasked row mrow with
  | nil => exact absurd hsel (selectMasked_ne_nil row mrow hlen hne)
  | cons v vs =>
    have hsub : ∀ u ∈ selectMasked row mrow, u.length = D :=
      fun u hu => hdim u (selectMasked_sub row mrow u hu)
    have hvD : v.length = D := hsub v (by rw [hsel]; simp)
    have hvsD : ∀ u ∈ vs, u.length = v.length := by
      intro u hu
      rw [hvD]
      exact hsub u (by rw [hsel]; simp [hu])
    refine ⟨foldVecs min v vs, ?_, ?_, ?_⟩
    · unfold poolRow
      rw [hsel]
    · rw [foldVecs_length min vs v hvsD, hvD]
    · intro d hd
      have hdv : d < v.length := by rw [hvD]; exact hd
      have hfold := foldVecs_getD min vs v d hvsD hdv
      rw [← List.foldl_map (fun u => u.getD d 0) min vs (v.getD d 0)] at hfold
      constructor
      · rcases foldl_min_choice (vs.map (fun u => u.getD d 0)) (v.getD d 0) with hc | hc
        · have hv : v ∈ selectMasked row mrow := by rw [hsel]; simp
          obtain ⟨j, hj, hm, hrow⟩ := (mem_selectMasked row mrow hlen v).mp hv
          exact ⟨j, hj, hm, by rw [hrow, hfold, hc]⟩
        · obtain ⟨u, hu, huv⟩ := List.mem_map.mp hc
          have humem : u ∈ selectMasked row mrow := by rw [hsel]; simp [hu]
          obtain ⟨j, hj, hm, hrow⟩ := (mem_selectMasked row mrow hlen u).mp humem
          exact ⟨j, hj, hm, by rw [hrow, hfold, huv]⟩
      · intro j hj hm
        have hmem : row.getD j [] ∈ selectMasked row mrow :=
          (mem_selectMasked row mrow hlen _).mpr ⟨j, hj, hm, rfl⟩
        rw [hsel, List.mem_cons] at hmem
        rw [hfold]
        rcases hmem with h1 | h2
        · rw [h1]
          exact foldl_min_le_init _ _
        · exact foldl_min_le_mem _ _ _ (List.mem_map.mpr ⟨_, h2, rfl⟩)

theorem reduce_mean_row_spec (row : SeqRow) (mrow : List Nat) (D : Nat)
    (hlen : mrow.length = row.length)
    (hdim : ∀ u ∈ row, u.length = D)
    (hne : ∃ j, j < mrow.length ∧ mrow.getD j 0 = 1) :
    ∃ r, reduce_mean_row row mrow = Except.ok r ∧ r.length = D ∧
      ∀ d, d < D →
        r.getD d 0 =
          (((List.range mrow.length).filter (fun j => mrow.getD j 0 == 1)).map
            (fun j => (row.getD j []).getD d 0)).sum /
          ((((List.range mrow.length).filter (fun j => mrow.getD j 0 == 1)).length : ℚ)) := by
  cases hsel : selectMasked row mrow with
  | nil => exact absurd hsel (selectMasked_ne_nil row mrow hlen hne)
  | cons v vs =>
    have hsub : ∀ u ∈ selectMasked row mrow, u.length = D :=
      fun u hu => hdim u (selectMasked_sub row mrow u hu)
    have hvD : v.length = D := hsub v (by rw [hsel]; simp)
    have hvsD : ∀ u ∈ vs, u.length = v.length := by
      intro u hu
      rw [hvD]
      exact hsub u (by rw [hsel]; simp [hu])
    have hflen : (foldVecs (fun a b => a + b) v vs).length = v.length :=
      foldVecs_length _ vs v hvsD
    refine ⟨(foldVecs (fun a b => a + b) v vs).map
      (fun x => x / ((vs.length : ℚ) + 1)), ?_, ?_, ?_⟩
    · unfold reduce_mean_row
      rw [hsel]
    · rw [List.length_map, hflen, hvD]
    · intro d hd
      have hdv : d < v.length := by rw [hvD]; exact hd
      have hdf : d < (foldVecs (fun a b => a + b) v vs).length := by
        rw [hflen]; exact hdv
      have hgetmap : ((foldVecs (fun a b => a + b) v vs).map
          (fun x => x / ((vs.length : ℚ) + 1))).getD d 0 =
          (foldVecs (fun a b => a + b) v vs).getD d 0 / ((vs.length : ℚ) + 1) := by
        rw [List.getD_eq_getElem _ _ (by rw [List.length_map]; exact hdf),
          List.getD_eq_getElem _ _ hdf, List.getElem_map]
      have hfold := foldVecs_getD (fun a b => a + b) vs v d hvsD hdv
      rw [← List.foldl_map (fun u => u.getD d 0) (fun x y => x + y) vs (v.getD d 0),
        foldl_add_eq] at hfold
      -- the masked index list and its projections
      have hmaskeq := selectMasked_eq mrow row hlen
      rw [hsel] at hmaskeq
      have hproj : ((List.range mrow.length).filter
            (fun j => mrow.getD j 0 == 1)).map
            (fun j => (row.getD j []).getD d 0) =
          (v :: vs).map (fun u => u.getD d 0) := by
        rw [hmaskeq, List.map_map]
        simp [Function.comp_def]
      have hcount : (((List.range mrow.length).filter
            (fun j => mrow.getD j 0 == 1)).length : ℚ) = (vs.length : ℚ) + 1 := by
        have heq : ((List.range mrow.length).filter
            (fun j => mrow.getD j 0 == 1)).length = (v :: vs).length := by
          rw [hmaskeq, List.length_map]
        rw [heq]
        push_cast [List.length_cons]
        ring
      rw [hgetmap, hfold, hproj, hcount, List.map_cons, List.sum_cons]

/-! ### lastMaskedIdx and cls-row lemmas -/

theorem getLast?_filter_range (p : Nat → Bool) :
    ∀ (n : Nat), (∃ j, j < n ∧ p j = true) →
    ∃ j, ((List.range n).filter p).getLast? = some j ∧ j < n ∧ p j = true ∧
      ∀ k, k < n → p k = true → k ≤ j := by
  intro n
  induction n with
  | zero =>
    rintro ⟨j, hj, _⟩
    exact absurd hj (by simp)
  | succ m ih =>
    intro hex
    by_cases hpm : p m = true
    · refine ⟨m, ?_, by omega, hpm, fun k hk _ => by omega⟩
      rw [List.range_succ, List.filter_append]
      have hone : List.filter p [m] = [m] := by simp [hpm]
      rw [hone, List.getLast?_concat]
    · have hex2 : ∃ j, j < m ∧ p j = true := by
        obtain ⟨j, hj, hpj⟩ := hex
        have hne : j ≠ m := fun h => hpm (h ▸ hpj)
        exact ⟨j, by omega, hpj⟩
      obtain ⟨j, hgl, hjm, hpj, hmax⟩ := ih hex2
      refine ⟨j, ?_, by omega, hpj, ?_⟩
      · rw [List.range_succ, List.filter_append]
        have hnone : List.filter p [m] = [] := by simp [hpm]
        rw [hnone, List.append_nil]
        exact hgl
      · intro k hk hpk
        have hne : k ≠ m := fun h => hpm (h ▸ hpk)
        exact hmax k (by omega) hpk

theorem lastMaskedIdx_spec (mrow : List Nat)
    (hne : ∃ j, j < mrow.length ∧ mrow.getD j 0 = 1) :
    ∃ j, lastMaskedIdx mrow = some j ∧ j < mrow.length ∧ mrow.getD j 0 = 1 ∧
      ∀ k, k < mrow.length → mrow.getD k 0 = 1 → k ≤ j := by
  obtain ⟨j, hgl, hj, hpj, hmax⟩ :=
    getLast?_filter_range (fun j => mrow.getD j 0 == 1) mrow.length
      (by obtain ⟨j, hj, hm⟩ := hne; exact ⟨j, hj, by simpa using hm⟩)
  refine ⟨j, hgl, hj, by simpa using hpj, fun k hk hm => hmax k hk (by simpa using hm)⟩

theorem lastMaskedIdx_none (mrow : List Nat) (hz : ∀ m ∈ mrow, m ≠ 1) :
    lastMaskedIdx mrow = none := by
  unfold lastMaskedIdx
  have hnil : (List.range mrow.length).filter (fun j => mrow.getD j 0 == 1) = [] := by
    rw [List.filter_eq_nil_iff]
    intro j hj
    have hjlt : j < mrow.length := List.mem_range.mp hj
    have hmem : mrow.getD j 0 ∈ mrow := by
      rw [List.getD_eq_getElem _ _ hjlt]
      exact List.getElem_mem hjlt
    simpa using hz _ hmem
  rw [hnil]
  rfl

theorem reduce_cls_row_head_eq (row : SeqRow) (mrow : List Nat) (hrow : row ≠ []) :
    reduce_cls_row row mrow ClsPos.head = Except.ok (row.getD 0 []) := by
  cases row with
  | nil => exact absurd rfl hrow
  | cons v vs => rfl

theorem reduce_cls_row_tail_eq (row : SeqRow) (mrow : List Nat)
    (hlen : mrow.length = row.length)
    (hne : ∃ j, j < mrow.length ∧ mrow.getD j 0 = 1) :
    ∃ j, j < mrow.length ∧ mrow.getD j 0 = 1 ∧
      (∀ k, k < mrow.length → mrow.getD k 0 = 1 → k ≤ j) ∧
      reduce_cls_row row mrow ClsPos.tail = Except.ok (row.getD j []) := by
  obtain ⟨j, hidx, hj, hm, hmax⟩ := lastMaskedIdx_spec mrow hne
  refine ⟨j, hj, hm, hmax, ?_⟩
  have hjrow : j < row.length := hlen ▸ hj
  have hget : row[j]? = some (row.getD j []) := by
    rw [List.getElem?_eq_getElem hjrow, List.getD_eq_getElem _ _ hjrow]
  simp only [reduce_cls_row, hidx, hget]

/-! ### All-zero mask rows fail -/

theorem poolRow_all_zero (f : ℚ → ℚ → ℚ) (row : SeqRow) (mrow : List Nat)
    (hz : ∀ m ∈ mrow, m ≠ 1) :
    poolRow f row mrow = Except.error EncodeError.emptySequence := by
  unfold poolRow
  rw [selectMasked_eq_nil row mrow hz]

theorem reduce_mean_row_all_zero (row : SeqRow) (mrow : List Nat)
    (hz : ∀ m ∈ mrow, m ≠ 1) :
    reduce_mean_row row mrow = Except.error EncodeError.emptySequence := by
  unfold reduce_mean_row
  rw [selectMasked_eq_nil row mrow hz]

theorem reduce_cls_row_tail_all_zero (row : SeqRow) (mrow : List Nat)
    (hz : ∀ m ∈ mrow, m ≠ 1) :
    reduce_cls_row row mrow ClsPos.tail = Except.error EncodeError.emptySequence := by
  simp only [reduce_cls_row, lastMaskedIdx_none mrow hz]

/-! ### Batch lifting -/

theorem mapExcept_zip_spec (f : SeqRow → List Nat → Except EncodeError Vec)
    (seq : Seq) (mask : Mask) (hlen : seq.length = mask.length)
    (hok : ∀ b, b < mask.length →
      ∃ r, f (seq.getD b []) (mask.getD b []) = Except.ok r) :
    ∃ out, mapExcept (fun p => f p.1 p.2) (seq.zip mask) = Except.ok out ∧
      out.length = seq.length ∧
      ∀ b, b < seq.length →
        f (seq.getD b []) (mask.getD b []) = Except.ok (out.getD b []) := by
  have hzlen : (seq.zip mask).length = seq.length := by
    rw [List.length_zip, hlen, Nat.min_self]
  have hall : ∀ p ∈ seq.zip mask, ∃ r, (fun p => f p.1 p.2) p = Except.ok r := by
    intro p hp
    obtain ⟨i, hi, hpi⟩ := List.mem_iff_getElem.mp hp
    have hiseq : i < seq.length := by rw [← hzlen]; exact hi
    have himask : i < mask.length := by rw [← hlen]; exact hiseq
    have hpair : p = (seq.getD i [], mask.getD i []) := by
      rw [← hpi, List.getElem_zip,
        List.getD_eq_getElem _ _ hiseq, List.getD_eq_getElem _ _ himask]
    rw [hpair]
    exact hok i himask
  obtain ⟨out, hout⟩ := mapExcept_ok_of_forall _ (seq.zip mask) hall
  refine ⟨out, hout, ?_, ?_⟩
  · rw [mapExcept_ok_length _ _ _ hout, hzlen]
  · intro b hb
    have hbz : b < (seq.zip mask).length := by rw [hzlen]; exact hb
    have hbm : b < mask.length := by rw [← hlen]; exact hb
    have hgot := mapExcept_ok_getD _ _ _ hout b hbz ([], []) []
    rw [List.getD_eq_getElem _ _ hbz, List.getElem_zip] at hgot
    have h2 : f (seq[b]) (mask[b]) = Except.ok (out.getD b []) := by
      simpa using hgot
    rw [List.getD_eq_getElem _ _ hb, List.getD_eq_getElem _ _ hbm]
    exact h2

/-! ### encode dispatch lemmas -/

theorem encode_steps_eq (enc : Encoder) (tokenize : String → List Int)
    (model : List (List Int) → List (List Nat) → Seq × List (List Vec))
    (data : List String) :
    (encode enc tokenize model data).1 =
      List.replicate data.length Step.tokenize ++ [Step.inference] := rfl

theorem encode_result_def (enc : Encoder) (tokenize : String → List Int)
    (model : List (List Int) → List (List Nat) → Seq × List (List Vec))
    (data : List String) :
    (encode enc tokenize model data).2 =
      (if enc.pooling_strategy = "cls" then
        if enc.model_name = "bert-base-uncased" ∨ enc.model_name = "roberta-base" then
          match (model (tokenBatch tokenize enc.pad_token_id data).1
              (tokenBatch tokenize enc.pad_token_id data).2).2 with
          | p :: _ => Except.ok p
          | [] => Except.error EncodeError.missingPooledOutput
        else
          match enc.cls_pos with
          | some pos =>
            reduce_cls (model (tokenBatch tokenize enc.pad_token_id data).1
                (tokenBatch tokenize enc.pad_token_id data).2).1
              (tokenBatch tokenize enc.pad_token_id data).2 pos
          | none => Except.error EncodeError.missingClsPos
      else if enc.pooling_strategy = "mean" then
        reduce_mean (model (tokenBatch tokenize enc.pad_token_id data).1
            (tokenBatch tokenize enc.pad_token_id data).2).1
          (tokenBatch tokenize enc.pad_token_id data).2
      else if enc.pooling_strategy = "max" then
        reduce_max (model (tokenBatch tokenize enc.pad_token_id data).1
            (tokenBatch tokenize enc.pad_token_id data).2).1
          (tokenBatch tokenize enc.pad_token_id data).2
      else if enc.pooling_strategy = "min" then
        reduce_min (model (tokenBatch tokenize enc.pad_token_id data).1
            (tokenBatch tokenize enc.pad_token_id data).2).1
          (tokenBatch tokenize enc.pad_token_id data).2
      else Except.error (EncodeError.unsupportedPooling enc.pooling_strategy)) := rfl

theorem encode_result_mean (enc : Encoder) (tokenize : String → List Int)
    (model : List (List Int) → List (List Nat) → Seq × List (List Vec))
    (data : List String) (h : enc.pooling_strategy = "mean") :
    (encode enc tokenize model data).2 =
      reduce_mean (model (tokenBatch tokenize enc.pad_token_id data).1
          (tokenBatch tokenize enc.pad_token_id data).2).1
        (tokenBatch tokenize enc.pad_token_id data).2 := by
  rw [encode_result_def, h, if_neg (by decide), if_pos rfl]

theorem encode_result_max (enc : Encoder) (tokenize : String → List Int)
    (model : List (List Int) → List (List Nat) → Seq × List (List Vec))
    (data : List String) (h : enc.pooling_strategy = "max") :
    (encode enc tokenize model data).2 =
      reduce_max (model (tokenBatch tokenize enc.pad_token_id data).1
          (tokenBatch tokenize enc.pad_token_id data).2).1
        (tokenBatch tokenize enc.pad_token_id data).2 := by
  rw [encode_result_def, h, if_neg (by decide), if_neg (by decide), if_pos rfl]

theorem encode_result_min (enc : Encoder) (tokenize : String → List Int)
    (model : List (List Int) → List (List Nat) → Seq × List (List Vec))
    (data : List String) (h : enc.pooling_strategy = "min") :
    (encode enc tokenize model data).2 =
      reduce_min (model (tokenBatch tokenize enc.pad_token_id data).1
          (tokenBatch tokenize enc.pad_token_id data).2).1
        (tokenBatch tokenize enc.pad_token_id data).2 := by
  rw [encode_result_def, h, if_neg (by decide), if_neg (by decide),
    if_neg (by decide), if_pos rfl]

theorem encode_result_cls_native (enc : Encoder) (tokenize : String → List Int)
    (model : List (List Int) → List (List Nat) → Seq × List (List Vec))
    (data : List String) (h : enc.pooling_strategy = "cls")
    (hname : enc.model_name = "bert-base-uncased" ∨ enc.model_name = "roberta-base") :
    (encode enc tokenize model data).2 =
      (match (model (tokenBatch tokenize enc.pad_token_id data).1
          (tokenBatch tokenize enc.pad_token_id data).2).2 with
      | p :: _ => Except.ok p
      | [] => Except.error EncodeError.missingPooledOutput) := by
  rw [encode_result_def, h, if_pos rfl, if_pos hname]

theorem encode_result_cls_fallback (enc : Encoder) (tokenize : String → List Int)
    (model : List (List Int) → List (List Nat) → Seq × List (List Vec))
    (data : List String) (h : enc.pooling_strategy = "cls")
    (hname : ¬(enc.model_name = "bert-base-uncased" ∨ enc.model_name = "roberta-base"))
    (pos : ClsPos) (hpos : enc.cls_pos = some pos) :
    (encode enc tokenize model data).2 =
      reduce_cls (model (tokenBatch tokenize enc.pad_token_id data).1
          (tokenBatch tokenize enc.pad_token_id data).2).1
        (tokenBatch tokenize enc.pad_token_id data).2 pos := by
  rw [encode_result_def, h, if_pos rfl, if_neg hname, hpos]

theorem encode_result_cls_missing (enc : Encoder) (tokenize : String → List Int)
    (model : List (List Int) → List (List Nat) → Seq × List (List Vec))
    (data : List String) (h : enc.pooling_strategy = "cls")
    (hname : ¬(enc.model_name = "bert-base-uncased" ∨ enc.model_name = "roberta-base"))
    (hpos : enc.cls_pos = none) :
    (encode enc tokenize model data).2 = Except.error EncodeError.missingClsPos := by
  rw [encode_result_def, h, if_pos rfl, if_neg hname, hpos]

theorem encode_result_other (enc : Encoder) (tokenize : String → List Int)
    (model : List (List Int) → List (List Nat) → Seq × List (List Vec))
    (data : List String)
    (h1 : enc.pooling_strategy ≠ "cls") (h2 : enc.pooling_strategy ≠ "mean")
    (h3 : enc.pooling_strategy ≠ "max") (h4 : enc.pooling_strategy ≠ "min") :
    (encode enc tokenize model data).2 =
      Except.error (EncodeError.unsupportedPooling enc.pooling_strategy) := by
  rw [encode_result_def, if_neg h1, if_neg h2, if_neg h3, if_neg h4]

/-! ### Batch-level reduce specifications -/

theorem reduce_max_batch (seq : Seq) (mask : Mask) (D : Nat)
    (hlen : seq.length = mask.length)
    (hrowlen : ∀ b, b < mask.length →
      (mask.getD b []).length = (seq.getD b []).length)
    (hdim : ∀ r ∈ seq, ∀ u ∈ r, u.length = D)
    (hne : ∀ b, b < mask.length →
      ∃ j, j < (mask.getD b []).length ∧ (mask.getD b []).getD j 0 = 1) :
    ∃ out, reduce_max seq mask = Except.ok out ∧ out.length = seq.length ∧
      ∀ b, b < seq.length → ∀ d, d < D →
        ((∃ j, j < (mask.getD b []).length ∧ (mask.getD b []).getD j 0 = 1 ∧
            ((seq.getD b []).getD j []).getD d 0 = ((out.getD b []).getD d 0)) ∧
         (∀ j, j < (mask.getD b []).length → (mask.getD b []).getD j 0 = 1 →
            ((seq.getD b []).getD j []).getD d 0 ≤ ((out.getD b []).getD d 0))) := by
  have hmem : ∀ b, b < seq.length → seq.getD b [] ∈ seq := by
    intro b hb
    rw [List.getD_eq_getElem _ _ hb]
    exact List.getElem_mem hb
  obtain ⟨out, hmap, hlen2, hidx⟩ :=
    mapExcept_zip_spec (fun row mrow => poolRow max row mrow) seq mask hlen
      (by
        intro b hb
        have hbseq : b < seq.length := by rw [hlen]; exact hb
        obtain ⟨r, hr, _, _⟩ := poolRow_max_spec (seq.getD b []) (mask.getD b []) D
          (hrowlen b hb) (hdim _ (hmem b hbseq)) (hne b hb)
        exact ⟨r, hr⟩)
  refine ⟨out, hmap, hlen2, ?_⟩
  intro b hb d hd
  have hbm : b < mask.length := by rw [← hlen]; exact hb
  obtain ⟨r, hr, hrlen, hrprops⟩ := poolRow_max_spec (seq.getD b []) (mask.getD b []) D
    (hrowlen b hbm) (hdim _ (hmem b hb)) (hne b hbm)
  have heq := hidx b hb
  rw [hr] at heq
  cases heq
  exact hrprops d hd

theorem reduce_min_batch (seq : Seq) (mask : Mask) (D : Nat)
    (hlen : seq.length = mask.length)
    (hrowlen : ∀ b, b < mask.length →
      (mask.getD b []).length = (seq.getD b []).length)
    (hdim : ∀ r ∈ seq, ∀ u ∈ r, u.length = D)
    (hne : ∀ b, b < mask.length →
      ∃ j, j < (mask.getD b []).length ∧ (mask.getD b []).getD j 0 = 1) :
    ∃ out, reduce_min seq mask = Except.ok out ∧ out.length = seq.length ∧
      ∀ b, b < seq.length → ∀ d, d < D →
        ((∃ j, j < (mask.getD b []).length ∧ (mask.getD b []).getD j 0 = 1 ∧
            ((seq.getD b []).getD j []).getD d 0 = ((out.getD b []).getD d 0)) ∧
         (∀ j, j < (mask.getD b []).length → (mask.getD b []).getD j 0 = 1 →
            ((out.getD b []).getD d 0) ≤ ((seq.getD b []).getD j []).getD d 0)) := by
  have hmem : ∀ b, b < seq.length → seq.getD b [] ∈ seq := by
    intro b hb
    rw [List.getD_eq_getElem _ _ hb]
    exact List.getElem_mem hb
  obtain ⟨out, hmap, hlen2, hidx⟩ :=
    mapExcept_zip_spec (fun row mrow => poolRow min row mrow) seq mask hlen
      (by
        intro b hb
        have hbseq : b < seq.length := by rw [hlen]; exact hb
        obtain ⟨r, hr, _, _⟩ := poolRow_min_spec (seq.getD b []) (mask.getD b []) D
          (hrowlen b hb) (hdim _ (hmem b hbseq)) (hne b hb)
        exact ⟨r, hr⟩)
  refine ⟨out, hmap, hlen2, ?_⟩
  intro b hb d hd
  have hbm : b < mask.length := by rw [← hlen]; exact hb
  obtain ⟨r, hr, hrlen, hrprops⟩ := poolRow_min_spec (seq.getD b []) (mask.getD b []) D
    (hrowlen b hbm) (hdim _ (hmem b hb)) (hne b hbm)
  have heq := hidx b hb
  rw [hr] at heq
  cases heq
  exact hrprops d hd

theorem reduce_mean_batch (seq : Seq) (mask : Mask) (D : Nat)
    (hlen : seq.length = mask.length)
    (hrowlen : ∀ b, b < mask.length →
      (mask.getD b []).length = (seq.getD b []).length)
    (hdim : ∀ r ∈ seq, ∀ u ∈ r, u.length = D)
    (hne : ∀ b, b < mask.length →
      ∃ j, j < (mask.getD b []).length ∧ (mask.getD b []).getD j 0 = 1) :
    ∃ out, reduce_mean seq mask = Except.ok out ∧ out.length = seq.length ∧
      ∀ b, b < seq.length → ∀ d, d < D →
        (out.getD b []).getD d 0 =
          (((List.range (mask.getD b []).length).filter
              (fun j => (mask.getD b []).getD j 0 == 1)).map
            (fun j => ((seq.getD b []).getD j []).getD d 0)).sum /
          ((((List.range (mask.getD b []).length).filter
              (fun j => (mask.getD b []).getD j 0 == 1)).length : ℚ)) := by
  have hmem : ∀ b, b < seq.length → seq.getD b [] ∈ seq := by
    intro b hb
    rw [List.getD_eq_getElem _ _ hb]
    exact List.getElem_mem hb
  obtain ⟨out, hmap, hlen2, hidx⟩ :=
    mapExcept_zip_spec (fun row mrow => reduce_mean_row row mrow) seq mask hlen
      (by
        intro b hb
        have hbseq : b < seq.length := by rw [hlen]; exact hb
        obtain ⟨r, hr, _, _⟩ := reduce_mean_row_spec (seq.getD b []) (mask.getD b []) D
          (hrowlen b hb) (hdim _ (hmem b hbseq)) (hne b hb)
        exact ⟨r, hr⟩)
  refine ⟨out, hmap, hlen2, ?_⟩
  intro b hb d hd
  have hbm : b < mask.length := by rw [← hlen]; exact hb
  obtain ⟨r, hr, hrlen, hrprops⟩ := reduce_mean_row_spec (seq.getD b []) (mask.getD b []) D
    (hrowlen b hbm) (hdim _ (hmem b hb)) (hne b hbm)
  have heq := hidx b hb
  rw [hr] at heq
  cases heq
  exact hrprops d hd

/-! ### Helpers for the error-path claims -/

theorem maskOf_all_zero (pad : Int) (ids : List Int)
    (h : ∀ t ∈ ids, t = pad) : ∀ m ∈ maskOf pad ids, m ≠ 1 := by
  intro m hm
  obtain ⟨t, ht, hmt⟩ := List.mem_map.mp hm
  rw [← hmt, if_pos (h t ht)]
  decide

theorem tokenBatch_mask_getD (tokenize : String → List Int) (pad : Int)
    (data : List String) (b : Nat) (hb : b < data.length) :
    ((tokenBatch tokenize pad data).2).getD b [] =
      maskOf pad (tokenize (data.getD b "")) := by
  show ((data.map tokenize).map (maskOf pad)).getD b [] = _
  rw [List.getD_eq_getElem _ _ (by simpa using hb), List.getElem_map,
    List.getElem_map, List.getD_eq_getElem _ _ hb]

theorem tokenBatch_mask_length (tokenize : String → List Int) (pad : Int)
    (data : List String) :
    ((tokenBatch tokenize pad data).2).length = data.length := by
  show ((data.map tokenize).map (maskOf pad)).length = data.length
  rw [List.length_map, List.length_map]

theorem mapExcept_zip_row_error (f : SeqRow → List Nat → Except EncodeError Vec)
    (seq : Seq) (mask : Mask) (b : Nat)
    (hb1 : b < seq.length) (hb2 : b < mask.length)
    (hrow : f (seq.getD b []) (mask.getD b []) =
      Except.error EncodeError.emptySequence)
    (hclass : ∀ row mrow e, f row mrow = Except.error e →
      e = EncodeError.emptySequence) :
    mapExcept (fun p => f p.1 p.2) (seq.zip mask) =
      Except.error EncodeError.emptySequence := by
  have hbz : b < (seq.zip mask).length := by
    rw [List.length_zip]
    exact lt_min hb1 hb2
  have hmem : (seq.getD b [], mask.getD b []) ∈ seq.zip mask := by
    have hpair : (seq.zip mask)[b] = (seq.getD b [], mask.getD b []) := by
      rw [List.getElem_zip, List.getD_eq_getElem _ _ hb1,
        List.getD_eq_getElem _ _ hb2]
    rw [← hpair]
    exact List.getElem_mem hbz
  obtain ⟨e2, he2⟩ :=
    mapExcept_error_of_mem (fun p => f p.1 p.2) (seq.zip mask)
      (seq.getD b [], mask.getD b []) EncodeError.emptySequence hmem hrow
  obtain ⟨a, _, hfa⟩ := mapExcept_error_mem _ _ _ he2
  rw [he2, hclass a.1 a.2 e2 hfa]

theorem containsSub_append (needle : List Char) :
    ∀ (pre hay : List Char), containsSub needle hay = true →
      containsSub needle (pre ++ hay) = true := by
  intro pre
  induction pre with
  | nil => intro hay h; exact h
  | cons c cs ih =>
    intro hay h
    show (charsLeadSeg needle (c :: (cs ++ hay)) || containsSub needle (cs ++ hay)) = true
    rw [ih hay h, Bool.or_true]

theorem reduce_max_error_eq (seq : Seq) (mask : Mask) (e : EncodeError)
    (h : reduce_max seq mask = Except.error e) : e = EncodeError.emptySequence := by
  unfold reduce_max at h
  obtain ⟨a, _, hfa⟩ := mapExcept_error_mem _ _ _ h
  exact poolRow_error_eq max a.1 a.2 e hfa

theorem reduce_min_error_eq (seq : Seq) (mask : Mask) (e : EncodeError)
    (h : reduce_min seq mask = Except.error e) : e = EncodeError.emptySequence := by
  unfold reduce_min at h
  obtain ⟨a, _, hfa⟩ := mapExcept_error_mem _ _ _ h
  exact poolRow_error_eq min a.1 a.2 e hfa

theorem reduce_mean_error_eq (seq : Seq) (mask : Mask) (e : EncodeError)
    (h : reduce_mean seq mask = Except.error e) : e = EncodeError.emptySequence := by
  unfold reduce_mean at h
  obtain ⟨a, _, hfa⟩ := mapExcept_error_mem _ _ _ h
  exact reduce_mean_row_error_eq a.1 a.2 e hfa

theorem reduce_cls_error_eq (seq : Seq) (mask : Mask) (pos : ClsPos)
    (e : EncodeError) (h : reduce_cls seq mask pos = Except.error e) :
    e = EncodeError.emptySequence := by
  unfold reduce_cls at h
  obtain ⟨a, _, hfa⟩ := mapExcept_error_mem _ _ _ h
  exact reduce_cls_row_error_eq a.1 a.2 pos e hfa

/-! ### Claim theorems -/

/-- C5: the claim says every one of the 11 registry identities can be
initialized by both backend variants.  The code contradicts this (and its own
constructor docstring, which lists `flaubert-base-cased` as supported): the
tokenizer registry and the Torch model registry contain
`flaubert-base-cased`, but the TF model registry of
`TransformerTFEncoder._init_model` does not (and `TFFlaubertModel` is never
imported), so `model_dict[self.model_name]` raises `KeyError` for the TF
variant of that identity. -/
theorem tf_registry_missing_flaubert :
    "flaubert-base-cased" ∈ tokenizer_dict_keys ∧
    "flaubert-base-cased" ∈ torch_model_dict_keys ∧
    "flaubert-base-cased" ∉ tf_model_dict_keys := by
  refine ⟨by decide, by decide, by decide⟩

/-- C6: an unsupported model identity is rejected by `_init_tokenizer` with
the failure event carrying the message that enumerates every supported
identity (the source logs the enumerating message and raises at lines 60-62,
before the tokenizer is constructed), and no initialized `Encoder` results,
so no tokenization can ever be performed for that configuration. -/
theorem unsupported_model_rejected_at_init (cfg : EncoderConfig)
    (pad_of : String → Int) (sentinel_pad : Int)
    (h : cfg.model_name ∉ tokenizer_dict_keys) :
    initTokenizer cfg pad_of sentinel_pad =
        Except.error (supportsMessage cfg.model_name) ∧
    (∀ k ∈ tokenizer_dict_keys,
      containsSub k.toList (supportsMessage cfg.model_name).toList = true) ∧
    (∀ e : Encoder, initTokenizer cfg pad_of sentinel_pad ≠ Except.ok e) := by
  have hinit : initTokenizer cfg pad_of sentinel_pad =
      Except.error (supportsMessage cfg.model_name) := by
    unfold initTokenizer
    rw [if_neg h]
  have hclosed : ∀ k ∈ tokenizer_dict_keys, containsSub k.toList
      ((" not in our supports: " : String).toList ++
        (String.intercalate "," tokenizer_dict_keys).toList) = true := by decide
  refine ⟨hinit, ?_, ?_⟩
  · intro k hk
    have hmsg : (supportsMessage cfg.model_name).toList =
        cfg.model_name.toList ++ ((" not in our supports: " : String).toList ++
          (String.intercalate "," tokenizer_dict_keys).toList) := by
      unfold supportsMessage
      simp only [String.toList, String.data_append, List.append_assoc]
    rw [hmsg]
    exact containsSub_append k.toList cfg.model_name.toList _ (hclosed k hk)
  · intro e he
    rw [hinit] at he
    exact Except.noConfusion he

theorem unsupported_model_rejected_at_init_witness :
    "unknown-model" ∉ tokenizer_dict_keys ∧
    initTokenizer (mkConfig "unknown-model" "mean" 64 "transformer")
        (fun _ => 0) 0 =
      Except.error (supportsMessage "unknown-model") :=
  ⟨by decide,
   (unsupported_model_rejected_at_init
     (mkConfig "unknown-model" "mean" 64 "transformer")
     (fun _ => 0) 0 (by decide)).1⟩

/-- C7: an unrecognized `pooling_strategy` makes `encode` fail with the
unsupported-pooling error (source lines 114-116), and for each of the four
recognized values no unsupported-pooling error is ever produced. -/
theorem unsupported_pooling_dispatch (enc : Encoder)
    (tokenize : String → List Int)
    (model : List (List Int) → List (List Nat) → Seq × List (List Vec))
    (data : List String) :
    (enc.pooling_strategy ∉ (["cls", "mean", "max", "min"] : List String) →
      (encode enc tokenize model data).2 =
        Except.error (EncodeError.unsupportedPooling enc.pooling_strategy)) ∧
    (enc.pooling_strategy ∈ (["cls", "mean", "max", "min"] : List String) →
      ∀ s, (encode enc tokenize model data).2 ≠
        Except.error (EncodeError.unsupportedPooling s)) := by
  constructor
  · intro h
    simp only [List.mem_cons, List.not_mem_nil, or_false, not_or] at h
    obtain ⟨h1, h2, h3, h4⟩ := h
    exact encode_result_other enc tokenize model data h1 h2 h3 h4
  · intro hmem s hcontra
    simp only [List.mem_cons, List.not_mem_nil, or_false] at hmem
    rcases hmem with hc | hm | hx | hn
    · by_cases hname : enc.model_name = "bert-base-uncased" ∨
        enc.model_name = "roberta-base"
      · rw [encode_result_cls_native enc tokenize model data hc hname] at hcontra
        cases hextra : (model (tokenBatch tokenize enc.pad_token_id data).1
            (tokenBatch tokenize enc.pad_token_id data).2).2 with
        | nil => rw [hextra] at hcontra; simp at hcontra
        | cons p rest => rw [hextra] at hcontra; simp at hcontra
      · cases hpos : enc.cls_pos with
        | none =>
          rw [encode_result_cls_missing enc tokenize model data hc hname hpos]
            at hcontra
          simp at hcontra
        | some pos =>
          rw [encode_result_cls_fallback enc tokenize model data hc hname pos hpos]
            at hcontra
          exact EncodeError.noConfusion (reduce_cls_error_eq _ _ _ _ hcontra)
    · rw [encode_result_mean enc tokenize model data hm] at hcontra
      exact EncodeError.noConfusion (reduce_mean_error_eq _ _ _ hcontra)
    · rw [encode_result_max enc tokenize model data hx] at hcontra
      exact EncodeError.noConfusion (reduce_max_error_eq _ _ _ hcontra)
    · rw [encode_result_min enc tokenize model data hn] at hcontra
      exact EncodeError.noConfusion (reduce_min_error_eq _ _ _ hcontra)

theorem unsupported_pooling_dispatch_witness :
    ("avg" : String) ∉ (["cls", "mean", "max", "min"] : List String) ∧
    (encode ⟨"bert-base-uncased", "avg", 64, "transformer",
        some ClsPos.head, 0⟩ (fun _ => []) (fun _ _ => ([], [])) ["hi"]).2 =
      Except.error (EncodeError.unsupportedPooling "avg") :=
  ⟨by decide,
   (unsupported_pooling_dispatch ⟨"bert-base-uncased", "avg", 64, "transformer",
       some ClsPos.head, 0⟩ (fun _ => []) (fun _ _ => ([], [])) ["hi"]).1
     (by decide)⟩

/-- C8: `cls_pos` is registered as `head` for the six bert-style identities,
as `tail` for `xlnet-base-cased`, and is left unregistered for the four
remaining registry identities; for those four, requesting `cls` pooling
fails (the source would hit an unset `self.cls_pos` attribute at line 107). -/
theorem cls_position_registry :
    (∀ name ∈ head_cls_models, clsPosFor name = some ClsPos.head) ∧
    clsPosFor "xlnet-base-cased" = some ClsPos.tail ∧
    (∀ name ∈ (["openai-gpt", "gpt2", "xlm-mlm-enfr-1024", "ctrl"] : List String),
      clsPosFor name = none) ∧
    (∀ name ∈ (["openai-gpt", "gpt2", "xlm-mlm-enfr-1024", "ctrl"] : List String),
      ∀ (ml : Nat) (mp : String) (pad : Int) (tokenize : String → List Int)
        (model : List (List Int) → List (List Nat) → Seq × List (List Vec))
        (data : List String),
        (encode ⟨name, "cls", ml, mp, clsPosFor name, pad⟩
            tokenize model data).2 =
          Except.error EncodeError.missingClsPos) := by
  refine ⟨by decide, by decide, by decide, ?_⟩
  intro name hname ml mp pad tokenize model data
  simp only [List.mem_cons, List.not_mem_nil, or_false] at hname
  rcases hname with rfl | rfl | rfl | rfl
  · exact encode_result_cls_missing _ _ _ _ rfl
      (show ¬(("openai-gpt" : String) = "bert-base-uncased" ∨
        ("openai-gpt" : String) = "roberta-base") by decide)
      (show clsPosFor "openai-gpt" = none by decide)
  · exact encode_result_cls_missing _ _ _ _ rfl
      (show ¬(("gpt2" : String) = "bert-base-uncased" ∨
        ("gpt2" : String) = "roberta-base") by decide)
      (show clsPosFor "gpt2" = none by decide)
  · exact encode_result_cls_missing _ _ _ _ rfl
      (show ¬(("xlm-mlm-enfr-1024" : String) = "bert-base-uncased" ∨
        ("xlm-mlm-enfr-1024" : String) = "roberta-base") by decide)
      (show clsPosFor "xlm-mlm-enfr-1024" = none by decide)
  · exact encode_result_cls_missing _ _ _ _ rfl
      (show ¬(("ctrl" : String) = "bert-base-uncased" ∨
        ("ctrl" : String) = "roberta-base") by decide)
      (show clsPosFor "ctrl" = none by decide)

theorem cls_position_registry_witness :
    clsPosFor "gpt2" = none ∧
    (encode ⟨"gpt2", "cls", 64, "transformer", clsPosFor "gpt2", 0⟩
        (fun _ => []) (fun _ _ => ([], [])) ["hi"]).2 =
      Except.error EncodeError.missingClsPos :=
  ⟨cls_position_registry.2.2.1 "gpt2" (by decide),
   cls_position_registry.2.2.2 "gpt2" (by decide) 64 "transformer" 0
     (fun _ => []) (fun _ _ => ([], [])) ["hi"]⟩

/-- C9: in every token batch that `encode` builds (source lines 89-96), the
attention mask is 1 at a position exactly when the token id there differs
from the pad-token id — the mask is derived from pad-token identity per
string (line 94). -/
theorem token_mask_invariant (tokenize : String → List Int) (pad : Int)
    (data : List String) (i j : Nat) (hi : i < data.length)
    (hj : j < (tokenize (data.getD i "")).length) :
    (((tokenBatch tokenize pad data).2).getD i []).getD j 0 = 1 ↔
      (((tokenBatch tokenize pad data).1).getD i []).getD j 0 ≠ pad := by
  have hmi : i < (data.map tokenize).length := by simpa using hi
  have h1 : ((tokenBatch tokenize pad data).1).getD i [] =
      tokenize (data.getD i "") := by
    show (data.map tokenize).getD i [] = _
    rw [List.getD_eq_getElem _ _ hmi, List.getElem_map,
      List.getD_eq_getElem _ _ hi]
  have h2 : ((tokenBatch tokenize pad data).2).getD i [] =
      maskOf pad (tokenize (data.getD i "")) := tokenBatch_mask_getD _ _ _ _ hi
  rw [h1, h2]
  unfold maskOf
  rw [List.getD_eq_getElem _ _ (by simpa using hj), List.getElem_map,
    List.getD_eq_getElem _ _ hj]
  by_cases hpad : (tokenize (data.getD i ""))[j] = pad
  · simp [hpad]
  · simp [hpad]

theorem token_mask_invariant_witness :
    (0 : Nat) < 1 ∧ (1 : Nat) < 3 ∧
    ((((tokenBatch (fun _ => [5, 7, 7]) 7 ["hi"]).2).getD 0 []).getD 1 0 = 1 ↔
      (((tokenBatch (fun _ => [5, 7, 7]) 7 ["hi"]).1).getD 0 []).getD 1 0 ≠ 7) :=
  ⟨by decide, by decide,
   token_mask_invariant (fun _ => [5, 7, 7]) 7 ["hi"] 0 1 (by decide) (by decide)⟩

/-- C10: for any strategy value outside the four recognized ones, `encode`
still tokenizes every input string and performs the full backend inference
pass (the step trace is one tokenize step per string followed by the
inference step) before the unknown strategy is detected and the call fails;
and the strategy is never validated at construction/initialization time:
`initTokenizer` succeeds for any strategy string whenever the model name is
registered, storing the strategy unchanged. -/
theorem pooling_validated_after_inference (enc : Encoder)
    (tokenize : String → List Int)
    (model : List (List Int) → List (List Nat) → Seq × List (List Vec))
    (data : List String)
    (h : enc.pooling_strategy ∉ (["cls", "mean", "max", "min"] : List String)) :
    (encode enc tokenize model data).1 =
      List.replicate data.length Step.tokenize ++ [Step.inference] ∧
    (encode enc tokenize model data).2 =
      Except.error (EncodeError.unsupportedPooling enc.pooling_strategy) ∧
    (∀ (mn s : String) (ml : Nat) (mp : String) (pad_of : String → Int)
        (sp : Int), mn ∈ tokenizer_dict_keys →
      ∃ e : Encoder, initTokenizer (mkConfig mn s ml mp) pad_of sp =
          Except.ok e ∧ e.pooling_strategy = s) := by
  refine ⟨encode_steps_eq enc tokenize model data, ?_, ?_⟩
  · simp only [List.mem_cons, List.not_mem_nil, or_false, not_or] at h
    obtain ⟨h1, h2, h3, h4⟩ := h
    exact encode_result_other enc tokenize model data h1 h2 h3 h4
  · intro mn s ml mp pad_of sp hmem
    unfold initTokenizer mkConfig
    rw [if_pos hmem]
    exact ⟨_, rfl, rfl⟩

theorem pooling_validated_after_inference_witness :
    ("avg" : String) ∉ (["cls", "mean", "max", "min"] : List String) ∧
    (encode ⟨"gpt2", "avg", 64, "transformer", none, 0⟩
        (fun _ => [1, 2]) (fun _ _ => ([[[3]], [[4]]], [])) ["a", "b"]).1 =
      List.replicate 2 Step.tokenize ++ [Step.inference] ∧
    (encode ⟨"gpt2", "avg", 64, "transformer", none, 0⟩
        (fun _ => [1, 2]) (fun _ _ => ([[[3]], [[4]]], [])) ["a", "b"]).2 =
      Except.error (EncodeError.unsupportedPooling "avg") :=
  ⟨by decide,
   (pooling_validated_after_inference ⟨"gpt2", "avg", 64, "transformer", none, 0⟩
     (fun _ => [1, 2]) (fun _ _ => ([[[3]], [[4]]], [])) ["a", "b"]
     (by decide)).1,
   (pooling_validated_after_inference ⟨"gpt2", "avg", 64, "transformer", none, 0⟩
     (fun _ => [1, 2]) (fun _ _ => ([[[3]], [[4]]], [])) ["a", "b"]
     (by decide)).2.1⟩

/-- C1: with every row's mask selecting at least one position, `max` pooling
returns per row the elementwise maximum over exactly the positions with
mask 1 (each output component is attained at a masked position and bounds
every masked position's value — masked-out positions contribute nothing),
and `min` pooling symmetrically the elementwise minimum. -/
theorem reduce_max_min_masked_only (seq : Seq) (mask : Mask) (D : Nat)
    (hlen : seq.length = mask.length)
    (hrowlen : ∀ b, b < mask.length →
      (mask.getD b []).length = (seq.getD b []).length)
    (hdim : ∀ r ∈ seq, ∀ u ∈ r, u.length = D)
    (hne : ∀ b, b < mask.length →
      ∃ j, j < (mask.getD b []).length ∧ (mask.getD b []).getD j 0 = 1) :
    (∃ out, reduce_max seq mask = Except.ok out ∧ out.length = seq.length ∧
      ∀ b, b < seq.length → ∀ d, d < D →
        ((∃ j, j < (mask.getD b []).length ∧ (mask.getD b []).getD j 0 = 1 ∧
            ((seq.getD b []).getD j []).getD d 0 = ((out.getD b []).getD d 0)) ∧
         (∀ j, j < (mask.getD b []).length → (mask.getD b []).getD j 0 = 1 →
            ((seq.getD b []).getD j []).getD d 0 ≤ ((out.getD b []).getD d 0)))) ∧
    (∃ out, reduce_min seq mask = Except.ok out ∧ out.length = seq.length ∧
      ∀ b, b < seq.length → ∀ d, d < D →
        ((∃ j, j < (mask.getD b []).length ∧ (mask.getD b []).getD j 0 = 1 ∧
            ((seq.getD b []).getD j []).getD d 0 = ((out.getD b []).getD d 0)) ∧
         (∀ j, j < (mask.getD b []).length → (mask.getD b []).getD j 0 = 1 →
            ((out.getD b []).getD d 0) ≤ ((seq.getD b []).getD j []).getD d 0))) :=
  ⟨reduce_max_batch seq mask D hlen hrowlen hdim hne,
   reduce_min_batch seq mask D hlen hrowlen hdim hne⟩

theorem reduce_max_min_masked_only_witness :
    (∃ out, reduce_max [[[(5 : ℚ), -5], [1, 1]]] [[1, 0]] = Except.ok out) ∧
    (∃ out, reduce_min [[[(5 : ℚ), -5], [1, 1]]] [[1, 0]] = Except.ok out) := by
  have h := reduce_max_min_masked_only [[[(5 : ℚ), -5], [1, 1]]] [[1, 0]] 2 rfl
    (by
      intro b hb
      have hb1 : b < 1 := by simpa using hb
      have hb0 : b = 0 := by omega
      subst hb0
      rfl)
    (by decide)
    (by
      intro b hb
      have hb1 : b < 1 := by simpa using hb
      have hb0 : b = 0 := by omega
      subst hb0
      exact ⟨0, by decide, rfl⟩)
  obtain ⟨⟨o1, h1, _⟩, ⟨o2, h2, _⟩⟩ := h
  exact ⟨⟨o1, h1⟩, ⟨o2, h2⟩⟩

/-- C4: with every row's mask selecting at least one position, `mean`
pooling returns per row the arithmetic average of the sequence vectors over
exactly the positions with mask 1: each output component equals the sum of
the masked positions' values at that dimension divided by the number of
masked positions. -/
theorem reduce_mean_average_of_masked (seq : Seq) (mask : Mask) (D : Nat)
    (hlen : seq.length = mask.length)
    (hrowlen : ∀ b, b < mask.length →
      (mask.getD b []).length = (seq.getD b []).length)
    (hdim : ∀ r ∈ seq, ∀ u ∈ r, u.length = D)
    (hne : ∀ b, b < mask.length →
      ∃ j, j < (mask.getD b []).length ∧ (mask.getD b []).getD j 0 = 1) :
    ∃ out, reduce_mean seq mask = Except.ok out ∧ out.length = seq.length ∧
      ∀ b, b < seq.length → ∀ d, d < D →
        (out.getD b []).getD d 0 =
          (((List.range (mask.getD b []).length).filter
              (fun j => (mask.getD b []).getD j 0 == 1)).map
            (fun j => ((seq.getD b []).getD j []).getD d 0)).sum /
          ((((List.range (mask.getD b []).length).filter
              (fun j => (mask.getD b []).getD j 0 == 1)).length : ℚ)) :=
  reduce_mean_batch seq mask D hlen hrowlen hdim hne

theorem reduce_mean_average_of_masked_witness :
    ∃ out, reduce_mean [[[(2 : ℚ), 2], [4, 4], [0, 0]]] [[1, 1, 0]] =
        Except.ok out ∧
      (out.getD 0 []).getD 0 0 = 3 ∧ (out.getD 0 []).getD 1 0 = 3 := by
  have h := reduce_mean_average_of_masked [[[(2 : ℚ), 2], [4, 4], [0, 0]]]
    [[1, 1, 0]] 2 rfl
    (by
      intro b hb
      have hb1 : b < 1 := by simpa using hb
      have hb0 : b = 0 := by omega
      subst hb0
      rfl)
    (by decide)
    (by
      intro b hb
      have hb1 : b < 1 := by simpa using hb
      have hb0 : b = 0 := by omega
      subst hb0
      exact ⟨0, by decide, rfl⟩)
  obtain ⟨out, hok, hlen, hval⟩ := h
  refine ⟨out, hok, ?_, ?_⟩
  · have h0 := hval 0 (by decide) 0 (by decide)
    rw [h0, show List.filter
        (fun j => (([[1, 1, 0]] : Mask).getD 0 []).getD j 0 == 1)
        (List.range (([[1, 1, 0]] : Mask).getD 0 []).length) = [0, 1] by decide]
    norm_num [List.getD]
  · have h1 := hval 0 (by decide) 1 (by decide)
    rw [h1, show List.filter
        (fun j => (([[1, 1, 0]] : Mask).getD 0 []).getD j 0 == 1)
        (List.range (([[1, 1, 0]] : Mask).getD 0 []).length) = [0, 1] by decide]
    norm_num [List.getD]

/-- C2: under `cls` pooling (source lines 103-107): for the model families
with a native pooled output (`bert-base-uncased`, `roberta-base`) encode
returns the first extra output directly, ignoring the sequence output and
mask; otherwise it routes to `reduce_cls` at the registered position, where
`head` extracts the row's vector at index 0 and `tail` the vector at the
highest index with mask 1 — the mask being the (truncated) mask the batch
was built with, so `tail` selects the last token of the truncated
sequence. -/
theorem cls_pooling_spec (enc : Encoder) (tokenize : String → List Int)
    (seqv : Seq) (p : List Vec) (rest : List (List Vec)) (data : List String)
    (row : SeqRow) (mrow : List Nat)
    (hcls : enc.pooling_strategy = "cls") :
    (enc.model_name = "bert-base-uncased" ∨ enc.model_name = "roberta-base" →
      (encode enc tokenize (fun _ _ => (seqv, p :: rest)) data).2 =
        Except.ok p) ∧
    (¬(enc.model_name = "bert-base-uncased" ∨ enc.model_name = "roberta-base") →
      ∀ pos, enc.cls_pos = some pos →
        (encode enc tokenize (fun _ _ => (seqv, p :: rest)) data).2 =
          reduce_cls seqv (tokenBatch tokenize enc.pad_token_id data).2 pos) ∧
    (row ≠ [] → reduce_cls_row row mrow ClsPos.head = Except.ok (row.getD 0 [])) ∧
    (mrow.length = row.length → (∃ j, j < mrow.length ∧ mrow.getD j 0 = 1) →
      ∃ j, j < mrow.length ∧ mrow.getD j 0 = 1 ∧
        (∀ k, k < mrow.length → mrow.getD k 0 = 1 → k ≤ j) ∧
        reduce_cls_row row mrow ClsPos.tail = Except.ok (row.getD j [])) := by
  refine ⟨?_, ?_, ?_, ?_⟩
  · intro hname
    rw [encode_result_cls_native enc tokenize (fun _ _ => (seqv, p :: rest))
      data hcls hname]
  · intro hname pos hpos
    rw [encode_result_cls_fallback enc tokenize (fun _ _ => (seqv, p :: rest))
      data hcls hname pos hpos]
  · exact reduce_cls_row_head_eq row mrow
  · exact reduce_cls_row_tail_eq row mrow

theorem cls_pooling_spec_witness :
    ∃ j, j < ([1, 1, 1] : List Nat).length ∧ ([1, 1, 1] : List Nat).getD j 0 = 1 ∧
      (∀ k, k < ([1, 1, 1] : List Nat).length →
        ([1, 1, 1] : List Nat).getD k 0 = 1 → k ≤ j) ∧
      reduce_cls_row [[(10 : ℚ)], [20], [30]] [1, 1, 1] ClsPos.tail =
        Except.ok ([[(10 : ℚ)], [20], [30]].getD j []) :=
  (cls_pooling_spec ⟨"xlnet-base-cased", "cls", 3, "transformer",
      some ClsPos.tail, 0⟩ (fun _ => []) [] [] [] []
      [[(10 : ℚ)], [20], [30]] [1, 1, 1] rfl).2.2.2 rfl ⟨0, by decide, rfl⟩

/-- C3: if some row's attention mask is entirely zero (every token of that
row is the pad token) and the requested reduction needs at least one real
token (`mean`, `max`, `min`, or `cls` at the `tail` position without a
native pooled output), the whole `encode` call fails with the
empty-sequence error: no embedding batch is returned, hence no other row's
result is returned either. -/
theorem empty_mask_row_fails_whole_call (enc : Encoder)
    (tokenize : String → List Int) (seqv : Seq) (extra : List (List Vec))
    (data : List String) (b : Nat)
    (hstrat : enc.pooling_strategy = "mean" ∨ enc.pooling_strategy = "max" ∨
      enc.pooling_strategy = "min" ∨
      (enc.pooling_strategy = "cls" ∧
        ¬(enc.model_name = "bert-base-uncased" ∨
          enc.model_name = "roberta-base") ∧
        enc.cls_pos = some ClsPos.tail))
    (hb : b < data.length) (hbs : b < seqv.length)
    (hzero : ∀ t ∈ tokenize (data.getD b ""), t = enc.pad_token_id) :
    (encode enc tokenize (fun _ _ => (seqv, extra)) data).2 =
      Except.error EncodeError.emptySequence ∧
    ∀ out, (encode enc tokenize (fun _ _ => (seqv, extra)) data).2 ≠
      Except.ok out := by
  have hmrow : ((tokenBatch tokenize enc.pad_token_id data).2).getD b [] =
      maskOf enc.pad_token_id (tokenize (data.getD b "")) :=
    tokenBatch_mask_getD _ _ _ _ hb
  have hz : ∀ m ∈ ((tokenBatch tokenize enc.pad_token_id data).2).getD b [],
      m ≠ 1 := by
    rw [hmrow]
    exact maskOf_all_zero _ _ hzero
  have hb2 : b < ((tokenBatch tokenize enc.pad_token_id data).2).length := by
    rw [tokenBatch_mask_length]
    exact hb
  have hmain : (encode enc tokenize (fun _ _ => (seqv, extra)) data).2 =
      Except.error EncodeError.emptySequence := by
    rcases hstrat with hm | hx | hn | ⟨hc, hname, hpos⟩
    · rw [encode_result_mean enc tokenize (fun _ _ => (seqv, extra)) data hm]
      exact mapExcept_zip_row_error (fun row mrow => reduce_mean_row row mrow)
        seqv _ b hbs hb2 (reduce_mean_row_all_zero _ _ hz)
        (fun row mrow e he => reduce_mean_row_error_eq row mrow e he)
    · rw [encode_result_max enc tokenize (fun _ _ => (seqv, extra)) data hx]
      exact mapExcept_zip_row_error (fun row mrow => poolRow max row mrow)
        seqv _ b hbs hb2 (poolRow_all_zero max _ _ hz)
        (fun row mrow e he => poolRow_error_eq max row mrow e he)
    · rw [encode_result_min enc tokenize (fun _ _ => (seqv, extra)) data hn]
      exact mapExcept_zip_row_error (fun row mrow => poolRow min row mrow)
        seqv _ b hbs hb2 (poolRow_all_zero min _ _ hz)
        (fun row mrow e he => poolRow_error_eq min row mrow e he)
    · rw [encode_result_cls_fallback enc tokenize (fun _ _ => (seqv, extra))
        data hc hname ClsPos.tail hpos]
      exact mapExcept_zip_row_error
        (fun row mrow => reduce_cls_row row mrow ClsPos.tail)
        seqv _ b hbs hb2 (reduce_cls_row_tail_all_zero _ _ hz)
        (fun row mrow e he => reduce_cls_row_error_eq row mrow ClsPos.tail e he)
  refine ⟨hmain, ?_⟩
  intro out hout
  rw [hmain] at hout
  exact Except.noConfusion hout

theorem empty_mask_row_fails_whole_call_witness :
    (encode ⟨"bert-base-uncased", "mean", 64, "transformer",
        some ClsPos.head, 0⟩ (fun _ => [0, 0])
        (fun _ _ => ([[[(1 : ℚ)], [2]]], [])) [""]).2 =
      Except.error EncodeError.emptySequence :=
  (empty_mask_row_fails_whole_call
    ⟨"bert-base-uncased", "mean", 64, "transformer", some ClsPos.head, 0⟩
    (fun _ => [0, 0]) [[[(1 : ℚ)], [2]]] [] [""] 0
    (Or.inl rfl) (by decide) (by decide) (by decide)).1

end Jina
